import Mathlib

/-!
Verification of the indicator-and-signal computation layer of the
Nifty-50 momentum/volatility analyzer.

The embedded code is `analyze_technical_indicators` from
`src/pricing_model.py`, together with the behavior of the third-party
calls it makes:

  * `ta.momentum.rsi(close, window=14)` (the `ta` library): day-over-day
    differences with the leading missing value treated as zero, gains and
    losses smoothed by `ewm(alpha=1/14, adjust=False).mean()` (Wilder-style
    exponential smoothing seeded at the first element), and
    `np.where(emadn == 0, 100, 100 - 100/(1 + emaup/emadn))`.
  * `Series.pct_change()` (pandas): `p_t / p_{t-1} - 1`, with a leading
    missing value that the subsequent `std()` skips.
  * `Series.std()` (pandas): sample standard deviation with `ddof=1`.
  * `df['product_id'].unique()` (pandas): distinct values in order of first
    appearance.
  * `sort_values(by='date')`: ascending sort by date (modelled here by a
    stable insertion sort).

Prices are modelled as exact rationals.  The only irrational quantity the
code produces is the volatility `std * sqrt(252)`, a product of square
roots of nonnegative rationals; it is represented exactly by the radicand
of the equivalent single square root (`SqrtQ`), keeping every definition
computable and equality decidable.
-/

/-- One row of the price-history table: `date, product_id, product_name,
avg_price, qty_sold` as produced by the ingestion layer. -/
structure Obs where
  date : Nat
  product_id : String
  product_name : String
  avg_price : ℚ
  qty_sold : Nat
deriving DecidableEq, Repr

/-- A nonnegative real number of the form `√q` for a rational `q ≥ 0`,
represented exactly by its radicand.  All radicands arising below are
nonnegative (they are variances times 252), so equality of `SqrtQ` values
coincides with equality of the real numbers they denote. -/
structure SqrtQ where
  radicand : ℚ
deriving DecidableEq, Repr

/-- `SqrtQ.sqrt q` represents the real number `√q` (for `q ≥ 0`). -/
def SqrtQ.sqrt (q : ℚ) : SqrtQ := ⟨q⟩

/-- Product of two square-root values: `√a * √b = √(a*b)` for `a, b ≥ 0`. -/
def SqrtQ.mul (a b : SqrtQ) : SqrtQ := ⟨a.radicand * b.radicand⟩

/-- The per-instrument result record built by `analyze_technical_indicators`:
`{"rsi": ..., "volatility": ..., "signal": ..., "signal_color": ...}`. -/
structure IndicatorResult where
  rsi : ℚ
  volatility : SqrtQ
  signal : String
  signal_color : String
deriving DecidableEq, Repr

/-- Stable ascending insertion (by `date`) of one row into an already
sorted list; auxiliary to `sortByDate`. -/
def insertByDate (o : Obs) : List Obs → List Obs
  | [] => [o]
  | x :: xs => if o.date ≤ x.date then o :: x :: xs else x :: insertByDate o xs

/-- Model of `sort_values(by='date')`: stable ascending sort by date. -/
def sortByDate : List Obs → List Obs
  | [] => []
  | x :: xs => insertByDate x (sortByDate xs)

/-- Model of `df['product_id'].unique()`: the distinct values of a list in
order of first appearance. -/
def uniqueKeep : List String → List String
  | [] => []
  | x :: xs => x :: uniqueKeep (xs.filter (fun y => y != x))
termination_by l => l.length
decreasing_by
  simp only [List.length_cons]
  exact Nat.lt_succ_of_le (List.length_filter_le _ _)

/-- The distinct tickers of the table, in order of first appearance
(`unique_tickers = df['product_id'].unique()`). -/
def uniqueTickers (tbl : List Obs) : List String :=
  uniqueKeep (tbl.map (fun o => o.product_id))

/-- The `avg_price` column of `df[df['product_id'] == ticker].sort_values(by='date')`:
this instrument's prices in ascending date order. -/
def pricesOf (tbl : List Obs) (ticker : String) : List ℚ :=
  (sortByDate (tbl.filter (fun o => o.product_id == ticker))).map (fun o => o.avg_price)

/-- Day-over-day differences `p_t - p_{t-1}` of a price list
(the `close.diff(1)` series of the `ta` library, leading missing value
dropped; it is re-inserted as a zero by `emaupLast`/`emadnLast` below,
mirroring `diff.where(diff > 0, 0.0)` which maps it to `0.0`). -/
def diffList : List ℚ → List ℚ
  | a :: b :: rest => (b - a) :: diffList (b :: rest)
  | _ => []

/-- `up_direction = diff.where(diff > 0, 0.0)` applied to one difference. -/
def upPart (d : ℚ) : ℚ := if 0 < d then d else 0

/-- `down_direction = -diff.where(diff < 0, -0.0)` applied to one difference. -/
def downPart (d : ℚ) : ℚ := if d < 0 then -d else 0

/-- One step of `ewm(alpha=1/14, adjust=False).mean()`:
`y_t = (1 - α) y_{t-1} + α x_t` with `α = 1/14`. -/
def ewmStep (y x : ℚ) : ℚ := (1 - 1/14) * y + (1/14) * x

/-- Final value of `ewm(alpha=1/14, adjust=False).mean()` over a list:
`y_0 = x_0`, then `ewmStep` along the rest.  (The `min_periods=14` setting
of the `ta` library only masks early outputs; the final value, the only
one the code reads, is unaffected.) -/
def ewmLast : List ℚ → ℚ
  | [] => 0
  | x :: xs => xs.foldl ewmStep x

/-- Final smoothed gain `emaup` of the `ta` RSI: the exponential moving
average of the up-moves, with the leading missing difference contributing
`0.0`. -/
def emaupLast (prices : List ℚ) : ℚ :=
  ewmLast ((0 : ℚ) :: (diffList prices).map upPart)

/-- Final smoothed loss `emadn` of the `ta` RSI. -/
def emadnLast (prices : List ℚ) : ℚ :=
  ewmLast ((0 : ℚ) :: (diffList prices).map downPart)

/-- Final value of `ta.momentum.rsi(close, window=14)`:
`np.where(emadn == 0, 100, 100 - (100 / (1 + emaup/emadn)))` at the last
index. -/
def taRsiLast (prices : List ℚ) : ℚ :=
  if emadnLast prices = 0 then 100
  else 100 - 100 / (1 + emaupLast prices / emadnLast prices)

/-- Model of `Series.pct_change()` with the leading missing value dropped
(as `Series.std()` skips it): pandas computes `p_t / p_{t-1} - 1`. -/
def pctChange : List ℚ → List ℚ
  | a :: b :: rest => (b / a - 1) :: pctChange (b :: rest)
  | _ => []

/-- Model of `Series.std()` squared: the sample variance with `ddof=1`
(denominator `n - 1`).  Degenerate sizes (`n ≤ 1`), where pandas would
yield a missing value, evaluate to the junk value `0` via rational
division by zero; they are excluded by the 15-row floor wherever this
matters. -/
def sampleVar (xs : List ℚ) : ℚ :=
  (xs.map (fun x => (x - xs.sum / (xs.length : ℚ)) ^ 2)).sum / ((xs.length : ℚ) - 1)

/-- The per-instrument body of the loop in `analyze_technical_indicators`,
given this instrument's date-ordered prices: the latest RSI, the
annualized volatility `std * np.sqrt(252)` (represented as a `SqrtQ`), and
the signal / signal-color chain

```
signal = "HOLD / NEUTRAL"; signal_color = "gray"
if current_rsi > 70: ... elif current_rsi < 30: ...
elif current_rsi > 60: ... elif current_rsi < 40: ...
```
-/
def analyzeStock (prices : List ℚ) : IndicatorResult :=
  let current_rsi := taRsiLast prices
  let volatility := SqrtQ.mul (SqrtQ.sqrt (sampleVar (pctChange prices))) (SqrtQ.sqrt 252)
  if 70 < current_rsi then ⟨current_rsi, volatility, "SELL (Overbought)", "red"⟩
  else if current_rsi < 30 then ⟨current_rsi, volatility, "BUY (Oversold)", "green"⟩
  else if 60 < current_rsi then ⟨current_rsi, volatility, "Watch (Trending High)", "orange"⟩
  else if current_rsi < 40 then ⟨current_rsi, volatility, "Watch (Trending Low)", "blue"⟩
  else ⟨current_rsi, volatility, "HOLD / NEUTRAL", "gray"⟩

/-- One loop iteration of `analyze_technical_indicators` for a ticker:
`if len(stock_df) < 15: continue`, otherwise the result record. -/
def analyzeTicker (tbl : List Obs) (ticker : String) : Option IndicatorResult :=
  if (pricesOf tbl ticker).length < 15 then none
  else some (analyzeStock (pricesOf tbl ticker))

/-- `analyze_technical_indicators(df)`: the result dictionary, modelled as
an association list keyed by ticker in loop order (tickers in order of
first appearance, instruments with fewer than 15 rows skipped). -/
def analyze_technical_indicators (tbl : List Obs) : List (String × IndicatorResult) :=
  (uniqueTickers tbl).filterMap (fun t => (analyzeTicker tbl t).map (fun r => (t, r)))

/-!  Definitions taken from the specification's words (not from the code),
for the refinement claims. -/

/-- Signal rule as the spec states it: fixed thresholds evaluated in
priority order, first match wins, a pure function of the latest momentum
value. -/
def specSignal (m : ℚ) : String :=
  if 70 < m then "SELL (Overbought)"
  else if m < 30 then "BUY (Oversold)"
  else if 60 < m then "Watch (Trending High)"
  else if m < 40 then "Watch (Trending Low)"
  else "HOLD / NEUTRAL"

/-- Reference oscillator as claim C2 states it: over the most recent
14-difference window, average the magnitudes of upward and downward
changes with a simple (non-exponential) rolling mean, and return
`100 - 100 / (1 + avg_gain/avg_loss)`, saturating at 100 when the average
loss is zero and at 0 when the average gain is zero. -/
def smaRsiLast (prices : List ℚ) : ℚ :=
  let ds := (diffList prices).drop ((diffList prices).length - 14)
  let avg_gain := (ds.map (fun d => max d 0)).sum / 14
  let avg_loss := (ds.map (fun d => max (-d) 0)).sum / 14
  if avg_loss = 0 then 100
  else if avg_gain = 0 then 0
  else 100 - 100 / (1 + avg_gain / avg_loss)

/-- Wilder-style smoothed average as a plain recurrence, stated
independently of the code's fold: starting from 0, each day updates the
running average to `(13 * previous + current) / 14`. -/
def wilderAvgSpec (f : ℚ → ℚ) : ℚ → List ℚ → ℚ
  | acc, [] => acc
  | acc, d :: ds => wilderAvgSpec f ((13 * acc + f d) / 14) ds

/-- Oscillator per the amended claim C2: day-over-day changes over the
whole series, gains `max d 0` and losses `max (-d) 0` smoothed by the
Wilder recurrence seeded at zero, value `100 - 100/(1 + ag/al)` with
saturation at 100 when the smoothed loss is zero. -/
def rsiWilderSpec (prices : List ℚ) : ℚ :=
  let ds := diffList prices
  let ag := wilderAvgSpec (fun d => max d 0) 0 ds
  let al := wilderAvgSpec (fun d => max (-d) 0) 0 ds
  if al = 0 then 100 else 100 - 100 / (1 + ag / al)

/-- Day-over-day percentage return series as the spec phrases it:
`(price_t - price_{t-1}) / price_{t-1}`. -/
def specReturns : List ℚ → List ℚ
  | a :: b :: rest => ((b - a) / a) :: specReturns (b :: rest)
  | _ => []

/-!  Helper lemmas: looking up a ticker in the result association list. -/

/-- Looking up a key in an association list built by `filterMap` over a key
list, where each key produces at most one pair keyed by itself. -/
theorem lookup_filterMap_keyed (g : String → Option IndicatorResult) (t : String)
    (l : List String) :
    List.lookup t (l.filterMap (fun s => (g s).map (fun r => (s, r))))
      = if t ∈ l then g t else none := by
  induction l with
  | nil => simp
  | cons s l ih =>
    rw [List.filterMap_cons]
    by_cases hts : t = s
    · subst hts
      cases hgs : g t with
      | none =>
        simp only [hgs, Option.map_none', ih]
        by_cases h : t ∈ l <;> simp [h, hgs]
      | some r => simp [hgs, List.lookup]
    · cases hgs : g s with
      | none =>
        simp only [hgs, Option.map_none', ih]
        simp [List.mem_cons, hts]
      | some r =>
        have hbeq : (t == s) = false := by simp [hts]
        simp [hgs, List.lookup, hbeq, ih, List.mem_cons, hts]

/-- Membership in `uniqueKeep` is membership in the original list. -/
theorem mem_uniqueKeep (t : String) (l : List String) : t ∈ uniqueKeep l ↔ t ∈ l := by
  induction l using uniqueKeep.induct with
  | case1 => simp [uniqueKeep]
  | case2 x xs ih =>
    rw [uniqueKeep]
    simp only [List.mem_cons, ih, List.mem_filter]
    by_cases htx : t = x
    · simp [htx]
    · simp [htx, bne_iff_ne]

/-- Inserting one row grows the length by one. -/
theorem length_insertByDate (o : Obs) (l : List Obs) :
    (insertByDate o l).length = l.length + 1 := by
  induction l with
  | nil => rfl
  | cons x xs ih =>
    rw [insertByDate]
    split
    · rfl
    · simp [ih]

/-- Sorting preserves length. -/
theorem length_sortByDate (l : List Obs) : (sortByDate l).length = l.length := by
  induction l with
  | nil => rfl
  | cons x xs ih => rw [sortByDate, length_insertByDate, ih]; rfl

/-- The price list of a ticker has the length of its filtered row set. -/
theorem pricesOf_length (tbl : List Obs) (t : String) :
    (pricesOf tbl t).length = (tbl.filter (fun o => o.product_id == t)).length := by
  rw [pricesOf, List.length_map, length_sortByDate]

/-- A ticker with at least one row appears among the unique tickers. -/
theorem mem_uniqueTickers_of_ne_zero (tbl : List Obs) (t : String)
    (h : (pricesOf tbl t).length ≠ 0) : t ∈ uniqueTickers tbl := by
  rw [pricesOf_length] at h
  have hne : tbl.filter (fun o => o.product_id == t) ≠ [] := by
    intro hnil; rw [hnil] at h; exact h rfl
  obtain ⟨o, ho⟩ := List.exists_mem_of_ne_nil _ hne
  have := List.mem_filter.mp ho
  rw [uniqueTickers, mem_uniqueKeep]
  refine List.mem_map.mpr ⟨o, this.1, ?_⟩
  exact beq_iff_eq.mp this.2

/-- The lookup of any ticker in the output of `analyze_technical_indicators`. -/
theorem lookup_analyze (tbl : List Obs) (t : String) :
    List.lookup t (analyze_technical_indicators tbl)
      = if t ∈ uniqueTickers tbl then analyzeTicker tbl t else none :=
  lookup_filterMap_keyed (analyzeTicker tbl) t (uniqueTickers tbl)

/-- A ticker with at least 15 rows is present in the output, carrying the
per-instrument result of its ordered price series. -/
theorem lookup_analyze_some (tbl : List Obs) (t : String)
    (h : 15 ≤ (pricesOf tbl t).length) :
    List.lookup t (analyze_technical_indicators tbl)
      = some (analyzeStock (pricesOf tbl t)) := by
  rw [lookup_analyze, if_pos (mem_uniqueTickers_of_ne_zero tbl t (by omega)),
    analyzeTicker, if_neg (by omega)]

/-- Any result present in the output is the per-instrument result of that
ticker's ordered price series. -/
theorem eq_analyzeStock_of_lookup (tbl : List Obs) (t : String) (r : IndicatorResult)
    (h : List.lookup t (analyze_technical_indicators tbl) = some r) :
    r = analyzeStock (pricesOf tbl t) := by
  rw [lookup_analyze] at h
  split at h
  · rw [analyzeTicker] at h
    split at h
    · exact absurd h (by simp)
    · exact (Option.some.injEq _ _ ▸ h).symm
  · exact absurd h (by simp)

/-!  Helper lemmas: the fields of a per-instrument result. -/

/-- The emitted `rsi` field is the final `ta` RSI value of the price series. -/
theorem analyzeStock_rsi (ps : List ℚ) : (analyzeStock ps).rsi = taRsiLast ps := by
  simp only [analyzeStock]
  split_ifs <;> rfl

/-- The emitted `volatility` field is `std * sqrt(252)` over the return
series, whatever signal branch is taken. -/
theorem analyzeStock_volatility (ps : List ℚ) :
    (analyzeStock ps).volatility
      = SqrtQ.mul (SqrtQ.sqrt (sampleVar (pctChange ps))) (SqrtQ.sqrt 252) := by
  simp only [analyzeStock]
  split_ifs <;> rfl

/-- The emitted `signal` field is the threshold chain applied to the final
RSI value. -/
theorem analyzeStock_signal (ps : List ℚ) :
    (analyzeStock ps).signal = specSignal (taRsiLast ps) := by
  simp only [analyzeStock, specSignal]
  split_ifs <;> rfl

/-!  Helper lemmas: the exponential smoothing recursion. -/

/-- Folding `ewmStep` from a nonnegative seed over nonnegative inputs stays
nonnegative. -/
theorem foldl_ewmStep_nonneg (l : List ℚ) (y : ℚ) (hy : 0 ≤ y)
    (h : ∀ x ∈ l, 0 ≤ x) : 0 ≤ l.foldl ewmStep y := by
  induction l generalizing y with
  | nil => exact hy
  | cons x t ih =>
    rw [List.foldl_cons]
    refine ih _ ?_ (fun z hz => h z (List.mem_cons_of_mem _ hz))
    have hx : 0 ≤ x := h x (List.mem_cons_self _ _)
    rw [ewmStep]
    nlinarith

/-- Folding `ewmStep` from a positive seed over nonnegative inputs stays
positive. -/
theorem foldl_ewmStep_pos (l : List ℚ) (y : ℚ) (hy : 0 < y)
    (h : ∀ x ∈ l, 0 ≤ x) : 0 < l.foldl ewmStep y := by
  induction l generalizing y with
  | nil => exact hy
  | cons x t ih =>
    rw [List.foldl_cons]
    refine ih _ ?_ (fun z hz => h z (List.mem_cons_of_mem _ hz))
    have hx : 0 ≤ x := h x (List.mem_cons_self _ _)
    rw [ewmStep]
    nlinarith

/-- Folding `ewmStep` from zero over all-zero inputs yields zero. -/
theorem foldl_ewmStep_zero (l : List ℚ) (h : ∀ x ∈ l, x = 0) :
    l.foldl ewmStep 0 = 0 := by
  induction l with
  | nil => rfl
  | cons x t ih =>
    rw [List.foldl_cons]
    have hx : x = 0 := h x (List.mem_cons_self _ _)
    have : ewmStep 0 x = 0 := by rw [hx, ewmStep]; norm_num
    rw [this]
    exact ih (fun z hz => h z (List.mem_cons_of_mem _ hz))

/-- The smoothed gain is nonnegative. -/
theorem emaupLast_nonneg (ps : List ℚ) : 0 ≤ emaupLast ps := by
  rw [emaupLast, ewmLast]
  refine foldl_ewmStep_nonneg _ _ le_rfl ?_
  intro x hx
  obtain ⟨d, _, hd⟩ := List.mem_map.mp hx
  rw [← hd, upPart]
  split <;> simp_all [le_of_lt]

/-- The smoothed loss is nonnegative. -/
theorem emadnLast_nonneg (ps : List ℚ) : 0 ≤ emadnLast ps := by
  rw [emadnLast, ewmLast]
  refine foldl_ewmStep_nonneg _ _ le_rfl ?_
  intro x hx
  obtain ⟨d, _, hd⟩ := List.mem_map.mp hx
  rw [← hd, downPart]
  split
  · linarith
  · exact le_rfl

/-- The final RSI value always lies in the closed interval `[0, 100]`. -/
theorem taRsiLast_bounds (ps : List ℚ) : 0 ≤ taRsiLast ps ∧ taRsiLast ps ≤ 100 := by
  rw [taRsiLast]
  split_ifs with h0
  · norm_num
  · have hdn : 0 < emadnLast ps := lt_of_le_of_ne (emadnLast_nonneg ps) (Ne.symm h0)
    have hrs : 0 ≤ emaupLast ps / emadnLast ps :=
      div_nonneg (emaupLast_nonneg ps) (le_of_lt hdn)
    have h1 : (0:ℚ) < 1 + emaupLast ps / emadnLast ps := by linarith
    have h2 : 100 / (1 + emaupLast ps / emadnLast ps) ≤ 100 := by
      rw [div_le_iff₀ h1]
      nlinarith
    have h3 : 0 < 100 / (1 + emaupLast ps / emadnLast ps) := by positivity
    constructor <;> linarith

/-!  Helper lemmas: monotone and constant price series. -/

/-- Differences of a strictly increasing series are positive. -/
theorem diffList_pos_of_chain (ps : List ℚ) (h : List.Chain' (· < ·) ps) :
    ∀ d ∈ diffList ps, 0 < d := by
  induction ps using diffList.induct with
  | case1 a b rest ih =>
    rw [List.chain'_cons] at h
    intro d hd
    rw [diffList] at hd
    rcases List.mem_cons.mp hd with h1 | h2
    · subst h1; linarith [h.1]
    · exact ih h.2 d h2
  | case2 l hl =>
    intro d hd
    rw [diffList] at hd
    · simp at hd
    · exact hl

/-- Differences of a strictly decreasing series are negative. -/
theorem diffList_neg_of_chain (ps : List ℚ) (h : List.Chain' (· > ·) ps) :
    ∀ d ∈ diffList ps, d < 0 := by
  induction ps using diffList.induct with
  | case1 a b rest ih =>
    rw [List.chain'_cons] at h
    intro d hd
    rw [diffList] at hd
    rcases List.mem_cons.mp hd with h1 | h2
    · subst h1; have : b < a := h.1; linarith
    · exact ih h.2 d h2
  | case2 l hl =>
    intro d hd
    rw [diffList] at hd
    · simp at hd
    · exact hl

/-- A series of at least two prices has at least one difference. -/
theorem diffList_ne_nil (ps : List ℚ) (h : 2 ≤ ps.length) : diffList ps ≠ [] := by
  match ps with
  | [] => simp at h
  | [a] => simp at h
  | a :: b :: rest => rw [diffList]; simp

/-- On a series with no downward move the smoothed loss is zero, so the
final RSI saturates at 100. -/
theorem taRsiLast_eq_100 (ps : List ℚ) (h : ∀ d ∈ diffList ps, 0 ≤ d) :
    taRsiLast ps = 100 := by
  have hdn : emadnLast ps = 0 := by
    rw [emadnLast, ewmLast]
    refine foldl_ewmStep_zero _ ?_
    intro x hx
    obtain ⟨d, hd, hdx⟩ := List.mem_map.mp hx
    rw [← hdx, downPart, if_neg (not_lt.mpr (h d hd))]
  rw [taRsiLast, if_pos hdn]

/-- A strictly increasing series yields RSI exactly 100. -/
theorem taRsiLast_of_incr (ps : List ℚ) (h : List.Chain' (· < ·) ps) :
    taRsiLast ps = 100 :=
  taRsiLast_eq_100 ps (fun d hd => le_of_lt (diffList_pos_of_chain ps h d hd))

/-- A strictly decreasing series of length at least 2 yields RSI exactly 0. -/
theorem taRsiLast_of_decr (ps : List ℚ) (h : List.Chain' (· > ·) ps)
    (hlen : 2 ≤ ps.length) : taRsiLast ps = 0 := by
  have hneg := diffList_neg_of_chain ps h
  have hup : emaupLast ps = 0 := by
    rw [emaupLast, ewmLast]
    refine foldl_ewmStep_zero _ ?_
    intro x hx
    obtain ⟨d, hd, hdx⟩ := List.mem_map.mp hx
    rw [← hdx, upPart, if_neg (not_lt.mpr (le_of_lt (hneg d hd)))]
  have hdn : 0 < emadnLast ps := by
    obtain ⟨d, rest, hds⟩ := List.exists_cons_of_ne_nil (diffList_ne_nil ps hlen)
    rw [emadnLast, ewmLast, hds, List.map_cons, List.foldl_cons]
    have hstep : ewmStep 0 (downPart d) = downPart d / 14 := by
      rw [ewmStep]; ring
    refine foldl_ewmStep_pos _ _ ?_ ?_
    · rw [hstep, downPart, if_pos (hneg d (hds ▸ List.mem_cons_self _ _))]
      have : d < 0 := hneg d (hds ▸ List.mem_cons_self _ _)
      linarith
    · intro z hz
      obtain ⟨e, he, hez⟩ := List.mem_map.mp hz
      rw [← hez, downPart]
      split
      · linarith
      · exact le_rfl
  rw [taRsiLast, if_neg (ne_of_gt hdn), hup, zero_div, add_zero, div_one]
  ring

/-- All differences of a constant series vanish. -/
theorem diffList_of_const (ps : List ℚ) (c : ℚ) (h : ∀ a ∈ ps, a = c) :
    ∀ d ∈ diffList ps, d = 0 := by
  induction ps using diffList.induct with
  | case1 a b rest ih =>
    intro d hd
    rw [diffList] at hd
    rcases List.mem_cons.mp hd with h1 | h2
    · have ha : a = c := h a (List.mem_cons_self _ _)
      have hb : b = c := h b (List.mem_cons_of_mem _ (List.mem_cons_self _ _))
      rw [h1, ha, hb, sub_self]
    · exact ih (fun x hx => h x (List.mem_cons_of_mem _ hx)) d h2
  | case2 l hl =>
    intro d hd
    rw [diffList] at hd
    · simp at hd
    · exact hl

/-- A constant series (all values equal) yields RSI exactly 100: the `ta`
library's `np.where(emadn == 0, 100, ...)` branch fires even though the
smoothed gain is also zero. -/
theorem taRsiLast_of_const (ps : List ℚ) (c : ℚ) (h : ∀ a ∈ ps, a = c) :
    taRsiLast ps = 100 :=
  taRsiLast_eq_100 ps (fun d hd => le_of_eq (diffList_of_const ps c h d hd).symm)

/-- All percentage returns of a constant nonzero series vanish. -/
theorem pctChange_of_const (ps : List ℚ) (c : ℚ) (hc : c ≠ 0) (h : ∀ a ∈ ps, a = c) :
    ∀ x ∈ pctChange ps, x = 0 := by
  induction ps using pctChange.induct with
  | case1 a b rest ih =>
    intro x hx
    rw [pctChange] at hx
    rcases List.mem_cons.mp hx with h1 | h2
    · have ha : a = c := h a (List.mem_cons_self _ _)
      have hb : b = c := h b (List.mem_cons_of_mem _ (List.mem_cons_self _ _))
      rw [h1, ha, hb, div_self hc, sub_self]
    · exact ih (fun z hz => h z (List.mem_cons_of_mem _ hz)) x h2
  | case2 l hl =>
    intro x hx
    rw [pctChange] at hx
    · simp at hx
    · exact hl

/-- The sample variance of an all-zero list is exactly zero. -/
theorem sampleVar_of_all_zero (xs : List ℚ) (h : ∀ x ∈ xs, x = 0) :
    sampleVar xs = 0 := by
  rw [sampleVar]
  have hsum : xs.sum = 0 := List.sum_eq_zero h
  have : (xs.map (fun x => (x - xs.sum / (xs.length : ℚ)) ^ 2)).sum = 0 := by
    refine List.sum_eq_zero ?_
    intro y hy
    obtain ⟨x, hx, hxy⟩ := List.mem_map.mp hy
    rw [← hxy, h x hx, hsum, zero_div, sub_zero]
    norm_num
  rw [this, zero_div]

/-- The sample variance is never negative (with division by zero giving
zero in the degenerate sizes). -/
theorem sampleVar_nonneg (xs : List ℚ) : 0 ≤ sampleVar xs := by
  rw [sampleVar]
  cases xs with
  | nil => norm_num
  | cons a l =>
    refine div_nonneg (List.sum_nonneg ?_) ?_
    · intro y hy
      obtain ⟨x, _, hxy⟩ := List.mem_map.mp hy
      rw [← hxy]
      positivity
    · rw [List.length_cons]
      push_cast
      linarith

/-!  Helper lemmas: refinement of the code's formulas against the spec's. -/

/-- On a series of nonzero prices, the pandas return `p_t / p_{t-1} - 1`
agrees with the spec's `(p_t - p_{t-1}) / p_{t-1}`. -/
theorem pctChange_eq_specReturns (ps : List ℚ) (h : ∀ p ∈ ps, p ≠ 0) :
    pctChange ps = specReturns ps := by
  induction ps using pctChange.induct with
  | case1 a b rest ih =>
    rw [pctChange, specReturns]
    have ha : a ≠ 0 := h a (List.mem_cons_self _ _)
    rw [ih (fun z hz => h z (List.mem_cons_of_mem _ hz))]
    have : b / a - 1 = (b - a) / a := by
      field_simp
    rw [this]
  | case2 l hl =>
    rw [pctChange, specReturns]
    · exact hl
    · exact hl

/-- The Wilder recurrence `(13 * prev + current) / 14` is one `ewm` step. -/
theorem wilderAvgSpec_eq_foldl (f : ℚ → ℚ) (ds : List ℚ) (acc : ℚ) :
    wilderAvgSpec f acc ds = ds.foldl (fun y d => ewmStep y (f d)) acc := by
  induction ds generalizing acc with
  | nil => rfl
  | cons d t ih =>
    rw [wilderAvgSpec, List.foldl_cons, ih]
    have : (13 * acc + f d) / 14 = ewmStep acc (f d) := by
      rw [ewmStep]; ring
    rw [this]

/-- The code's gain clipping is the spec's `max d 0`. -/
theorem upPart_eq_max (d : ℚ) : upPart d = max d 0 := by
  rw [upPart]
  rcases lt_or_le 0 d with h | h
  · rw [if_pos h, max_eq_left (le_of_lt h)]
  · rw [if_neg (not_lt.mpr h), max_eq_right h]

/-- The code's loss clipping is the spec's `max (-d) 0`. -/
theorem downPart_eq_max (d : ℚ) : downPart d = max (-d) 0 := by
  rw [downPart]
  rcases lt_or_le d 0 with h | h
  · rw [if_pos h, max_eq_left (by linarith)]
  · rw [if_neg (not_lt.mpr h), max_eq_right (by linarith)]

/-- The final `ta` RSI equals the spec-style Wilder-recurrence oscillator. -/
theorem taRsiLast_eq_rsiWilderSpec (ps : List ℚ) :
    taRsiLast ps = rsiWilderSpec ps := by
  have hup : emaupLast ps = wilderAvgSpec (fun d => max d 0) 0 (diffList ps) := by
    rw [emaupLast, ewmLast, wilderAvgSpec_eq_foldl, List.foldl_map]
    simp only [upPart_eq_max]
  have hdn : emadnLast ps = wilderAvgSpec (fun d => max (-d) 0) 0 (diffList ps) := by
    rw [emadnLast, ewmLast, wilderAvgSpec_eq_foldl, List.foldl_map]
    simp only [downPart_eq_max]
  rw [taRsiLast, rsiWilderSpec, hup, hdn]

/-- Semantic reading of the `SqrtQ` representation: for nonnegative
radicands, the radicand of a product is the product under the real square
root, i.e. `√a * √b = √(a*b)`. -/
theorem SqrtQ_mul_semantics (a b : SqrtQ) (ha : 0 ≤ a.radicand) :
    Real.sqrt ((SqrtQ.mul a b).radicand : ℝ)
      = Real.sqrt (a.radicand : ℝ) * Real.sqrt (b.radicand : ℝ) := by
  rw [SqrtQ.mul]
  push_cast
  exact Real.sqrt_mul (by exact_mod_cast ha) _

/-!  Concrete input tables used by witnesses and counterexamples. -/

/-- Witness table: one instrument `X` with 15 strictly increasing daily
prices. -/
def tblW : List Obs :=
  [⟨0, "X", "XCorp", 100, 10⟩, ⟨1, "X", "XCorp", 101, 10⟩, ⟨2, "X", "XCorp", 102, 10⟩,
   ⟨3, "X", "XCorp", 103, 10⟩, ⟨4, "X", "XCorp", 104, 10⟩, ⟨5, "X", "XCorp", 105, 10⟩,
   ⟨6, "X", "XCorp", 106, 10⟩, ⟨7, "X", "XCorp", 107, 10⟩, ⟨8, "X", "XCorp", 108, 10⟩,
   ⟨9, "X", "XCorp", 109, 10⟩, ⟨10, "X", "XCorp", 110, 10⟩, ⟨11, "X", "XCorp", 111, 10⟩,
   ⟨12, "X", "XCorp", 112, 10⟩, ⟨13, "X", "XCorp", 113, 10⟩, ⟨14, "X", "XCorp", 114, 10⟩]

/-- Witness table: one instrument `D` with 15 strictly decreasing daily
prices. -/
def tblDec : List Obs :=
  [⟨0, "D", "DCorp", 114, 10⟩, ⟨1, "D", "DCorp", 113, 10⟩, ⟨2, "D", "DCorp", 112, 10⟩,
   ⟨3, "D", "DCorp", 111, 10⟩, ⟨4, "D", "DCorp", 110, 10⟩, ⟨5, "D", "DCorp", 109, 10⟩,
   ⟨6, "D", "DCorp", 108, 10⟩, ⟨7, "D", "DCorp", 107, 10⟩, ⟨8, "D", "DCorp", 106, 10⟩,
   ⟨9, "D", "DCorp", 105, 10⟩, ⟨10, "D", "DCorp", 104, 10⟩, ⟨11, "D", "DCorp", 103, 10⟩,
   ⟨12, "D", "DCorp", 102, 10⟩, ⟨13, "D", "DCorp", 101, 10⟩, ⟨14, "D", "DCorp", 100, 10⟩]

/-- Table with one instrument `C` whose 15 prices are all `100`. -/
def tblConst : List Obs :=
  [⟨0, "C", "CCorp", 100, 10⟩, ⟨1, "C", "CCorp", 100, 10⟩, ⟨2, "C", "CCorp", 100, 10⟩,
   ⟨3, "C", "CCorp", 100, 10⟩, ⟨4, "C", "CCorp", 100, 10⟩, ⟨5, "C", "CCorp", 100, 10⟩,
   ⟨6, "C", "CCorp", 100, 10⟩, ⟨7, "C", "CCorp", 100, 10⟩, ⟨8, "C", "CCorp", 100, 10⟩,
   ⟨9, "C", "CCorp", 100, 10⟩, ⟨10, "C", "CCorp", 100, 10⟩, ⟨11, "C", "CCorp", 100, 10⟩,
   ⟨12, "C", "CCorp", 100, 10⟩, ⟨13, "C", "CCorp", 100, 10⟩, ⟨14, "C", "CCorp", 100, 10⟩]

/-- Table with one instrument `X` whose 15 ordered prices are
`1, 2, 1, 1, ..., 1`: one early gain, one early loss, then flat.  The
simple 14-period rolling mean weighs both moves equally (oscillator 50),
while the code's exponential smoothing does not. -/
def tblC2 : List Obs :=
  [⟨0, "X", "XCorp", 1, 10⟩, ⟨1, "X", "XCorp", 2, 10⟩, ⟨2, "X", "XCorp", 1, 10⟩,
   ⟨3, "X", "XCorp", 1, 10⟩, ⟨4, "X", "XCorp", 1, 10⟩, ⟨5, "X", "XCorp", 1, 10⟩,
   ⟨6, "X", "XCorp", 1, 10⟩, ⟨7, "X", "XCorp", 1, 10⟩, ⟨8, "X", "XCorp", 1, 10⟩,
   ⟨9, "X", "XCorp", 1, 10⟩, ⟨10, "X", "XCorp", 1, 10⟩, ⟨11, "X", "XCorp", 1, 10⟩,
   ⟨12, "X", "XCorp", 1, 10⟩, ⟨13, "X", "XCorp", 1, 10⟩, ⟨14, "X", "XCorp", 1, 10⟩]

/-- Table with one instrument `Y` having only 3 observations. -/
def tblShort : List Obs :=
  [⟨0, "Y", "YCorp", 100, 10⟩, ⟨1, "Y", "YCorp", 101, 10⟩, ⟨2, "Y", "YCorp", 102, 10⟩]

/-- Malformed table: instrument `B` has 15 rows but the price on date 7 is
`0`, a non-positive (invalid) price. -/
def tblBad : List Obs :=
  [⟨0, "B", "BCorp", 100, 10⟩, ⟨1, "B", "BCorp", 100, 10⟩, ⟨2, "B", "BCorp", 100, 10⟩,
   ⟨3, "B", "BCorp", 100, 10⟩, ⟨4, "B", "BCorp", 100, 10⟩, ⟨5, "B", "BCorp", 100, 10⟩,
   ⟨6, "B", "BCorp", 100, 10⟩, ⟨7, "B", "BCorp", 0, 10⟩, ⟨8, "B", "BCorp", 100, 10⟩,
   ⟨9, "B", "BCorp", 100, 10⟩, ⟨10, "B", "BCorp", 100, 10⟩, ⟨11, "B", "BCorp", 100, 10⟩,
   ⟨12, "B", "BCorp", 100, 10⟩, ⟨13, "B", "BCorp", 100, 10⟩, ⟨14, "B", "BCorp", 100, 10⟩]

/-!  The claims. -/

/-- Claim C1: for every instrument emitted in the output mapping, the
signal is a pure function of the latest momentum value determined by the
fixed thresholds evaluated in priority order, first match wins: `> 70`
yields "SELL (Overbought)"; otherwise `< 30` yields "BUY (Oversold)";
otherwise `> 60` yields "Watch (Trending High)"; otherwise `< 40` yields
"Watch (Trending Low)"; otherwise "HOLD / NEUTRAL". -/
theorem claim_C1 (tbl : List Obs) (tid : String) (r : IndicatorResult)
    (h : List.lookup tid (analyze_technical_indicators tbl) = some r) :
    r.signal = specSignal r.rsi := by
  rw [eq_analyzeStock_of_lookup tbl tid r h, analyzeStock_signal, analyzeStock_rsi]

/-- Witness for C1 at the concrete table `tblW`. -/
theorem claim_C1_witness :
    (analyzeStock (pricesOf tblW "X")).signal
      = specSignal (analyzeStock (pricesOf tblW "X")).rsi :=
  claim_C1 tblW "X" (analyzeStock (pricesOf tblW "X"))
    (lookup_analyze_some tblW "X" (by decide))

/-- Claim C3: an instrument whose filtered, date-ordered subsequence has
fewer than 15 rows gets no entry in the output mapping (and the total
function `analyze_technical_indicators` returns normally, so this is not
an error). -/
theorem claim_C3 (tbl : List Obs) (tid : String)
    (h : (pricesOf tbl tid).length < 15) :
    List.lookup tid (analyze_technical_indicators tbl) = none := by
  rw [lookup_analyze]
  split_ifs
  · rw [analyzeTicker, if_pos h]
  · rfl

/-- Witness for C3: instrument `Y` has 3 observations and is absent. -/
theorem claim_C3_witness :
    List.lookup "Y" (analyze_technical_indicators tblShort) = none :=
  claim_C3 tblShort "Y" (by decide)

/-- Claim C9: the compute operation is deterministic — equal input tables
produce equal output mappings.  (Purity is structural in this embedding:
`analyze_technical_indicators` is a function of its input table alone and
cannot mutate it.) -/
theorem claim_C9 (t₁ t₂ : List Obs) (h : t₁ = t₂) :
    analyze_technical_indicators t₁ = analyze_technical_indicators t₂ := by
  rw [h]

/-- Witness for C9 at the concrete table `tblW`. -/
theorem claim_C9_witness :
    analyze_technical_indicators tblW = analyze_technical_indicators tblW :=
  claim_C9 tblW tblW rfl

/-- Claim C10: every entry of the output mapping carries the fourth field
`signal_color`, and it is consistent with the signal: "red" exactly for
"SELL (Overbought)", "green" for "BUY (Oversold)", "orange" for
"Watch (Trending High)", "blue" for "Watch (Trending Low)", and "gray"
for "HOLD / NEUTRAL". -/
theorem claim_C10 (tbl : List Obs) (tid : String) (r : IndicatorResult)
    (h : List.lookup tid (analyze_technical_indicators tbl) = some r) :
    (r.signal_color = "red" ↔ r.signal = "SELL (Overbought)") ∧
    (r.signal_color = "green" ↔ r.signal = "BUY (Oversold)") ∧
    (r.signal_color = "orange" ↔ r.signal = "Watch (Trending High)") ∧
    (r.signal_color = "blue" ↔ r.signal = "Watch (Trending Low)") ∧
    (r.signal_color = "gray" ↔ r.signal = "HOLD / NEUTRAL") := by
  rw [eq_analyzeStock_of_lookup tbl tid r h]
  simp only [analyzeStock]
  split_ifs <;> dsimp only <;> decide

/-- Witness for C10 at the concrete table `tblW`. -/
theorem claim_C10_witness :
    ((analyzeStock (pricesOf tblW "X")).signal_color = "red"
        ↔ (analyzeStock (pricesOf tblW "X")).signal = "SELL (Overbought)") ∧
    ((analyzeStock (pricesOf tblW "X")).signal_color = "green"
        ↔ (analyzeStock (pricesOf tblW "X")).signal = "BUY (Oversold)") ∧
    ((analyzeStock (pricesOf tblW "X")).signal_color = "orange"
        ↔ (analyzeStock (pricesOf tblW "X")).signal = "Watch (Trending High)") ∧
    ((analyzeStock (pricesOf tblW "X")).signal_color = "blue"
        ↔ (analyzeStock (pricesOf tblW "X")).signal = "Watch (Trending Low)") ∧
    ((analyzeStock (pricesOf tblW "X")).signal_color = "gray"
        ↔ (analyzeStock (pricesOf tblW "X")).signal = "HOLD / NEUTRAL") :=
  claim_C10 tblW "X" (analyzeStock (pricesOf tblW "X"))
    (lookup_analyze_some tblW "X" (by decide))

/-- Counterexample to C2 as stated: on the 15-observation series
`1, 2, 1, ..., 1` of instrument `X` in `tblC2`, the emitted momentum is
`1300/27 ≈ 48.15` (exponential Wilder smoothing), while the simple
14-period rolling mean reference oscillator gives exactly `50`. -/
theorem claim_C2_counterexample :
    (pricesOf tblC2 "X").length = 15 ∧
    (List.lookup "X" (analyze_technical_indicators tblC2)).map IndicatorResult.rsi
      ≠ some (smaRsiLast (pricesOf tblC2 "X")) := by
  refine ⟨by decide, ?_⟩
  rw [lookup_analyze_some tblC2 "X" (by decide)]
  have hps : pricesOf tblC2 "X" = [1, 2, 1, 1, 1, 1, 1, 1, 1, 1, 1, 1, 1, 1, 1] := by
    decide
  rw [hps]
  have h1 : (analyzeStock [1, 2, 1, 1, 1, 1, 1, 1, 1, 1, 1, 1, 1, 1, 1]).rsi
      = 1300 / 27 := by
    rw [analyzeStock_rsi]
    norm_num [taRsiLast, emaupLast, emadnLast, ewmLast, diffList, upPart, downPart, ewmStep]
  have h2 : smaRsiLast [1, 2, 1, 1, 1, 1, 1, 1, 1, 1, 1, 1, 1, 1, 1] = 50 := by
    norm_num [smaRsiLast, diffList]
  simp only [Option.map_some', h1, h2, ne_eq, Option.some.injEq]
  norm_num

/-- Claim C2 (amended): for every instrument emitted in the output
mapping, the momentum value equals the oscillator computed with
Wilder-style exponential smoothing over the whole ordered series — the
running averages of the gains `max d 0` and the losses `max (-d) 0` of
the day-over-day changes updated as `(13 * prev + current) / 14` from a
zero seed — with value `100 - 100 / (1 + avg_gain/avg_loss)`, saturating
at 100 when the smoothed loss is zero (not the simple rolling mean the
claim stated). -/
theorem claim_C2 (tbl : List Obs) (tid : String) (r : IndicatorResult)
    (h : List.lookup tid (analyze_technical_indicators tbl) = some r) :
    r.rsi = rsiWilderSpec (pricesOf tbl tid) := by
  rw [eq_analyzeStock_of_lookup tbl tid r h, analyzeStock_rsi,
    taRsiLast_eq_rsiWilderSpec]

/-- Witness for the amended C2 at the concrete table `tblW`. -/
theorem claim_C2_witness :
    (analyzeStock (pricesOf tblW "X")).rsi = rsiWilderSpec (pricesOf tblW "X") :=
  claim_C2 tblW "X" (analyzeStock (pricesOf tblW "X"))
    (lookup_analyze_some tblW "X" (by decide))

/-- Claim C5: for every instrument emitted in the output mapping (with
valid, hence positive, prices), the emitted volatility equals the sample
standard deviation (denominator `n - 1`) of the day-over-day percentage
return series `(p_t - p_{t-1}) / p_{t-1}` over the entire date-ordered
history, multiplied by the square root of 252. -/
theorem claim_C5 (tbl : List Obs) (tid : String) (r : IndicatorResult)
    (h : List.lookup tid (analyze_technical_indicators tbl) = some r)
    (hpos : ∀ p ∈ pricesOf tbl tid, 0 < p) :
    r.volatility
      = SqrtQ.mul (SqrtQ.sqrt (sampleVar (specReturns (pricesOf tbl tid))))
          (SqrtQ.sqrt 252) := by
  rw [eq_analyzeStock_of_lookup tbl tid r h, analyzeStock_volatility,
    pctChange_eq_specReturns _ (fun p hp => ne_of_gt (hpos p hp))]

/-- Witness for C5 at the concrete table `tblW`. -/
theorem claim_C5_witness :
    (analyzeStock (pricesOf tblW "X")).volatility
      = SqrtQ.mul (SqrtQ.sqrt (sampleVar (specReturns (pricesOf tblW "X"))))
          (SqrtQ.sqrt 252) :=
  claim_C5 tblW "X" (analyzeStock (pricesOf tblW "X"))
    (lookup_analyze_some tblW "X" (by decide)) (by decide)

/-- Claim C6: for every instrument emitted in the output mapping with
valid observations (positive prices, no duplicate dates), the emitted
momentum lies in the closed interval `[0, 100]`. -/
theorem claim_C6 (tbl : List Obs) (tid : String) (r : IndicatorResult)
    (h : List.lookup tid (analyze_technical_indicators tbl) = some r)
    (_hpos : ∀ p ∈ pricesOf tbl tid, 0 < p)
    (_hdates : ((tbl.filter (fun o => o.product_id == tid)).map (fun o => o.date)).Nodup) :
    0 ≤ r.rsi ∧ r.rsi ≤ 100 := by
  rw [eq_analyzeStock_of_lookup tbl tid r h, analyzeStock_rsi]
  exact taRsiLast_bounds _

/-- Witness for C6 at the concrete table `tblW`. -/
theorem claim_C6_witness :
    0 ≤ (analyzeStock (pricesOf tblW "X")).rsi ∧
      (analyzeStock (pricesOf tblW "X")).rsi ≤ 100 :=
  claim_C6 tblW "X" (analyzeStock (pricesOf tblW "X"))
    (lookup_analyze_some tblW "X" (by decide)) (by decide) (by decide)

/-- Claim C7: an instrument with at least 15 ordered prices that are
strictly monotonically increasing is emitted with momentum exactly 100;
strictly monotonically decreasing, with momentum exactly 0. -/
theorem claim_C7 (tbl : List Obs) (tid : String)
    (hlen : 15 ≤ (pricesOf tbl tid).length) :
    (List.Chain' (· < ·) (pricesOf tbl tid) →
        (List.lookup tid (analyze_technical_indicators tbl)).map IndicatorResult.rsi
          = some 100) ∧
    (List.Chain' (· > ·) (pricesOf tbl tid) →
        (List.lookup tid (analyze_technical_indicators tbl)).map IndicatorResult.rsi
          = some 0) := by
  rw [lookup_analyze_some tbl tid hlen]
  constructor
  · intro hc
    simp only [Option.map_some', analyzeStock_rsi, taRsiLast_of_incr _ hc]
  · intro hc
    simp only [Option.map_some', analyzeStock_rsi,
      taRsiLast_of_decr _ hc (by omega)]

/-- Witness for C7: the increasing table `tblW` reaches momentum 100 and
the decreasing table `tblDec` reaches momentum 0. -/
theorem claim_C7_witness :
    (List.lookup "X" (analyze_technical_indicators tblW)).map IndicatorResult.rsi
        = some 100 ∧
    (List.lookup "D" (analyze_technical_indicators tblDec)).map IndicatorResult.rsi
        = some 0 :=
  ⟨(claim_C7 tblW "X" (by decide)).1 (by
      have hps : pricesOf tblW "X"
          = [100, 101, 102, 103, 104, 105, 106, 107, 108, 109, 110, 111, 112, 113, 114] := by
        decide
      rw [hps]
      norm_num [List.chain'_cons]),
   (claim_C7 tblDec "D" (by decide)).2 (by
      have hps : pricesOf tblDec "D"
          = [114, 113, 112, 111, 110, 109, 108, 107, 106, 105, 104, 103, 102, 101, 100] := by
        decide
      rw [hps]
      norm_num [List.chain'_cons])⟩

/-- Counterexample to C8 as stated: on the constant-price table
`tblConst` (15 observations of price 100 for instrument `C`), the emitted
momentum is 100 — the `avg_loss = 0` saturation branch fires on the 0/0
case — and the signal is "SELL (Overbought)", not the claimed boundary
value 50 with "HOLD / NEUTRAL". -/
theorem claim_C8_counterexample :
    (List.lookup "C" (analyze_technical_indicators tblConst)).map IndicatorResult.rsi
        ≠ some 50 ∧
    (List.lookup "C" (analyze_technical_indicators tblConst)).map IndicatorResult.signal
        ≠ some "HOLD / NEUTRAL" := by
  have h := lookup_analyze_some tblConst "C" (by decide)
  have hconst : ∀ a ∈ pricesOf tblConst "C", a = (100 : ℚ) := by decide
  have hrsi : taRsiLast (pricesOf tblConst "C") = 100 :=
    taRsiLast_of_const _ 100 hconst
  constructor
  · rw [h]
    simp only [Option.map_some', analyzeStock_rsi, hrsi, ne_eq, Option.some.injEq]
    norm_num
  · rw [h]
    simp only [Option.map_some', analyzeStock_signal, hrsi, ne_eq, Option.some.injEq]
    rw [specSignal, if_pos (by norm_num : (70 : ℚ) < 100)]
    decide

/-- Claim C8 (amended): an instrument whose ordered series of at least 15
prices is constant (all prices equal to some positive `c`) does get a
defined entry in the output mapping, with volatility exactly 0
(`√0 * √252`); but on the 0/0 momentum boundary the code's `avg_loss = 0`
saturation rule wins: the momentum is 100 and the signal is
"SELL (Overbought)", not the boundary value 50 with "HOLD / NEUTRAL". -/
theorem claim_C8 (tbl : List Obs) (tid : String) (n : ℕ) (c : ℚ)
    (hp : pricesOf tbl tid = List.replicate n c) (hn : 15 ≤ n) (hc : 0 < c) :
    List.lookup tid (analyze_technical_indicators tbl)
        = some (analyzeStock (List.replicate n c)) ∧
    (analyzeStock (List.replicate n c)).volatility
        = SqrtQ.mul (SqrtQ.sqrt 0) (SqrtQ.sqrt 252) ∧
    (analyzeStock (List.replicate n c)).rsi = 100 ∧
    (analyzeStock (List.replicate n c)).signal = "SELL (Overbought)" := by
  have hlen : 15 ≤ (pricesOf tbl tid).length := by
    rw [hp, List.length_replicate]
    exact hn
  have hconst : ∀ a ∈ List.replicate n c, a = c :=
    fun a ha => List.eq_of_mem_replicate ha
  have hrsi : taRsiLast (List.replicate n c) = 100 :=
    taRsiLast_of_const _ c hconst
  refine ⟨?_, ?_, ?_, ?_⟩
  · rw [lookup_analyze_some tbl tid hlen, hp]
  · rw [analyzeStock_volatility,
      sampleVar_of_all_zero _ (pctChange_of_const _ c (ne_of_gt hc) hconst)]
  · rw [analyzeStock_rsi, hrsi]
  · rw [analyzeStock_signal, hrsi, specSignal, if_pos (by norm_num : (70 : ℚ) < 100)]

/-- Witness for the amended C8 at the concrete constant table `tblConst`. -/
theorem claim_C8_witness :
    List.lookup "C" (analyze_technical_indicators tblConst)
        = some (analyzeStock (List.replicate 15 (100 : ℚ))) ∧
    (analyzeStock (List.replicate 15 (100 : ℚ))).volatility
        = SqrtQ.mul (SqrtQ.sqrt 0) (SqrtQ.sqrt 252) ∧
    (analyzeStock (List.replicate 15 (100 : ℚ))).rsi = 100 ∧
    (analyzeStock (List.replicate 15 (100 : ℚ))).signal = "SELL (Overbought)" :=
  claim_C8 tblConst "C" 15 100 (by decide) (by decide) (by decide)

/-- Claim C4 evaluation: the code performs no input validation.  On the
table `tblBad`, whose instrument `B` has 15 rows one of which carries the
malformed (non-positive) price 0, `analyze_technical_indicators` still
returns a mapping containing an entry for `B` instead of surfacing a
data-quality error.  (In Python, the division by the zero price makes the
pandas return series contain Infinity and the emitted volatility NaN —
a silently-wrong numeric value, exactly what the spec forbids.) -/
theorem claim_C4 :
    (List.lookup "B" (analyze_technical_indicators tblBad)).isSome = true := by
  rw [lookup_analyze_some tblBad "B" (by decide)]
  rfl
